import Mathlib

set_option maxHeartbeats 1000000

/-!
Verification development for the i-imo repository: the duplicate detection of
the profile-upload service, the transcription relay's audio endpoint, and the
analytics query-optimization engine described by the specification.
-/

/-! Definitions: profile-upload duplicate detection (convex images service). -/

def dotProduct (a b : List ℚ) : ℚ := (List.zipWith (fun x y => x * y) a b).sum

def sumSquares (a : List ℚ) : ℚ := dotProduct a a

/-- Decides, in exact rational arithmetic, whether the source's cosineSimilarity
of the two vectors exceeds the positive threshold t. The source returns
similarity 0 on a length mismatch or a zero norm; otherwise the similarity is
dotProduct / (sqrt normA * sqrt normB), which for t > 0 exceeds t exactly when
the dot product is positive and its square exceeds t ^ 2 * normA * normB. -/
def cosineSimGt (a b : List ℚ) (t : ℚ) : Bool :=
  a.length == b.length && decide (0 < dotProduct a b) &&
    decide (t ^ 2 * (sumSquares a * sumSquares b) < dotProduct a b ^ 2)

/-- Containment of one character list in another, as in the source's
String.prototype.includes calls. -/
def includesFrom (needle : List Char) : List Char → Bool
  | [] => needle.isEmpty
  | c :: rest => needle.isPrefixOf (c :: rest) || includesFrom needle rest

/-- Embedding of areNamesSimilar: lowercase and trim both names, then compare
for equality or containment in either direction. -/
def areNamesSimilar (name1 name2 : String) : Bool :=
  let n1 := name1.toLower.trim
  let n2 := name2.toLower.trim
  n1 == n2 || includesFrom n2.toList n1.toList || includesFrom n1.toList n2.toList

structure Person where
  id : Nat
  name : String
deriving DecidableEq

structure FaceEmb where
  personId : Nat
  emb : List ℚ
deriving DecidableEq

structure FaceDB where
  persons : List Person
  faceEmbs : List FaceEmb
deriving DecidableEq

structure DuplicateResult where
  personId : Nat
  reason : String
deriving DecidableEq

/-- Embeddings stored for one person, as the by_person index query returns. -/
def personEmbs (db : FaceDB) (pid : Nat) : List FaceEmb :=
  db.faceEmbs.filter (fun fe => decide (fe.personId = pid))

/-- Embedding of checkForDuplicate: scan the persons for a name-similar one;
if found, report a duplicate, with the stronger reason when one of that
person's embeddings passes the 0.7 cosine threshold; otherwise report a
duplicate when any stored embedding passes the 0.8 threshold. The source's
interpolated similarity percentages are omitted from the reason strings. -/
def checkForDuplicate (db : FaceDB) (name : String) (emb : List ℚ) :
    Option DuplicateResult :=
  match db.persons.find? (fun p => areNamesSimilar p.name name) with
  | some person =>
    match (personEmbs db person.id).find?
        (fun fe => cosineSimGt emb fe.emb (7 / 10)) with
    | some _ => some ⟨person.id, "Similar name and face detected"⟩
    | none => some ⟨person.id, "Similar name detected"⟩
  | none =>
    match db.faceEmbs.find? (fun fe => cosineSimGt emb fe.emb (8 / 10)) with
    | some fe => some ⟨fe.personId, "Similar face detected"⟩
    | none => none

/-! Definitions: transcription relay, POST /omi/audio (backend/main.ts). -/

abbrev Chunk := List Nat

structure TranscriptionSession where
  chunks : List Chunk
  transcripts : List String
  lastActivity : Nat
deriving DecidableEq

/-- An express query-string value: absent, a single string, or an array. -/
inductive QueryParam
  | missing
  | str (s : String)
  | arr (ss : List String)
deriving DecidableEq

/-- The request body after the raw middleware: a Buffer or something else. -/
inductive ReqBody
  | buffer (data : Chunk)
  | other
deriving DecidableEq

structure AudioRequest where
  uid : QueryParam
  sample_rate : QueryParam
  body : ReqBody
deriving DecidableEq

/-- The uid check of the handler: !uid || typeof uid != "string" rejects a
missing value, an array, and the falsy empty string. -/
def uidString : QueryParam → Option String
  | QueryParam.str s => if s = "" then none else some s
  | _ => none

/-- JavaScript truthiness of a query value: undefined and the empty string are
falsy, any array (an object) is truthy. -/
def truthyParam : QueryParam → Bool
  | QueryParam.missing => false
  | QueryParam.str s => !(s == "")
  | QueryParam.arr _ => true

def digitsToNat (cs : List Char) : Nat :=
  cs.foldl (fun n c => 10 * n + (c.toNat - 48)) 0

def decimalToRat (ip fp : List Char) : ℚ :=
  (digitsToNat ip : ℚ) + (digitsToNat fp : ℚ) / ((10 : ℚ) ^ fp.length)

/-- Unsigned decimal literal: digits with an optional fractional part. -/
def parseUnsigned (cs : List Char) : Option ℚ :=
  let ip := cs.takeWhile Char.isDigit
  match cs.dropWhile Char.isDigit with
  | [] => if ip.isEmpty then none else some (decimalToRat ip [])
  | '.' :: fp =>
    if fp.all Char.isDigit && !(ip.isEmpty && fp.isEmpty) then
      some (decimalToRat ip fp)
    else none
  | _ => none

/-- JavaScript Number coercion of a string, for finite decimal literals; none
models NaN. The empty (or all-whitespace) string coerces to 0. -/
def jsStringToNumber (s : String) : Option ℚ :=
  match s.trim.toList with
  | [] => some 0
  | '-' :: cs => (parseUnsigned cs).map (fun q => -q)
  | '+' :: cs => parseUnsigned cs
  | cs => parseUnsigned cs

/-- JavaScript Number coercion of a query value: undefined is NaN, an array
coerces through its comma-joined string form. -/
def jsNumber : QueryParam → Option ℚ
  | QueryParam.missing => none
  | QueryParam.str s => jsStringToNumber s
  | QueryParam.arr [] => some 0
  | QueryParam.arr [s] => jsStringToNumber s
  | QueryParam.arr _ => none

/-- Embedding of the chunk-buffer update: push the new chunk, then shift the
oldest out when more than 6 are held. -/
def pushChunk (chunks : List Chunk) (c : Chunk) : List Chunk :=
  let cs := chunks ++ [c]
  if cs.length > 6 then cs.tail else cs

def updateSession (s : TranscriptionSession) (data : Chunk) (now : Nat) :
    TranscriptionSession :=
  ⟨pushChunk s.chunks data, s.transcripts, now⟩

abbrev Sessions := List (String × TranscriptionSession)

def getSession (m : Sessions) (uid : String) : Option TranscriptionSession :=
  (m.find? (fun p => p.1 == uid)).map (fun p => p.2)

def setSession (m : Sessions) (uid : String) (s : TranscriptionSession) :
    Sessions :=
  match m with
  | [] => [(uid, s)]
  | p :: rest => if p.1 == uid then (uid, s) :: rest else p :: setSession rest uid s

/-- Embedding of the POST /omi/audio handler's validation and session update:
reject a bad uid or sample_rate with 400 before touching the sessions map;
on a Buffer body, create the session if absent and push the chunk. The later
transcription calls do not touch the sessions map, so they are elided; a
non-Buffer body answers without a session update (the source's
res.json(...).status(400) has already sent the response with status 200). -/
def postOmiAudio (st : Sessions) (req : AudioRequest) (now : Nat) :
    Nat × Sessions :=
  match uidString req.uid with
  | none => (400, st)
  | some uid =>
    if !truthyParam req.sample_rate then (400, st)
    else
      match jsNumber req.sample_rate with
      | none => (400, st)
      | some sr =>
        if sr ≤ 0 then (400, st)
        else
          match req.body with
          | ReqBody.other => (200, st)
          | ReqBody.buffer data =>
            let s0 := (getSession st uid).getD ⟨[], [], now⟩
            (200, setSession st uid (updateSession s0 data now))

/-! Definitions: the analytics engine. The engine's Python source is not part
of the repository snapshot (only its README and performance report are), so
these definitions are modelled from the specification. -/

inductive EventType
  | serve
  | impression
  | click
  | purchase
deriving DecidableEq

/-- Modelled from the spec: a named timezone is its UTC-offset function in
milliseconds at a given instant (daylight saving makes it instant-dependent). -/
structure Timezone where
  offsetAt : Int → Int

def millisPerDay : Int := 86400000

/-- Modelled from the spec: the calendar day (days since epoch) of a UTC epoch
millisecond timestamp converted to the target timezone. -/
def localDay (tz : Timezone) (ts : Int) : Int :=
  (ts + tz.offsetAt ts).fdiv millisPerDay

def utcDay (ts : Int) : Int := ts.fdiv millisPerDay

/-- Modelled from the spec: the example target timezone America/Los_Angeles at
its standard offset UTC-8; daylight shifts are instances of the general
offsetAt function. -/
def losAngelesStd : Timezone := ⟨fun _ => -28800000⟩

structure RawRecord where
  type : Option String
  ts : Option Int
  publisher_id : Option String
  advertiser_id : Option String
  country : Option String
  bid_price : Option ℚ
  total_price : Option ℚ
deriving DecidableEq

structure Event where
  type : EventType
  ts : Int
  day : Int
  publisher_id : String
  advertiser_id : String
  country : String
  bid_price : ℚ
  total_price : ℚ
deriving DecidableEq

inductive IngestError
  | MalformedRecordError
deriving DecidableEq

def parseEventType (s : String) : Option EventType :=
  if s = "serve" then some EventType.serve
  else if s = "impression" then some EventType.impression
  else if s = "click" then some EventType.click
  else if s = "purchase" then some EventType.purchase
  else none

/-- Modelled from the spec: parse one raw record, requiring type, timestamp,
publisher, advertiser and country, plus bid_price for impressions and
total_price for purchases; the day bucket is the timestamp's calendar day in
the target timezone. A missing or invalid required field is a
MalformedRecordError. -/
def parseRecord (tz : Timezone) (r : RawRecord) : Except IngestError Event :=
  match r.type, r.ts, r.publisher_id, r.advertiser_id, r.country with
  | some tstr, some ts, some pid, some aid, some c =>
    match parseEventType tstr with
    | none => Except.error IngestError.MalformedRecordError
    | some EventType.impression =>
      match r.bid_price with
      | none => Except.error IngestError.MalformedRecordError
      | some b =>
        Except.ok ⟨EventType.impression, ts, localDay tz ts, pid, aid, c, b,
          r.total_price.getD 0⟩
    | some EventType.purchase =>
      match r.total_price with
      | none => Except.error IngestError.MalformedRecordError
      | some t =>
        Except.ok ⟨EventType.purchase, ts, localDay tz ts, pid, aid, c,
          r.bid_price.getD 0, t⟩
    | some ty =>
      Except.ok ⟨ty, ts, localDay tz ts, pid, aid, c, r.bid_price.getD 0,
        r.total_price.getD 0⟩
  | _, _, _, _, _ => Except.error IngestError.MalformedRecordError

def wellFormed (tz : Timezone) (r : RawRecord) : Bool :=
  (parseRecord tz r).toOption.isSome

/-- The event type a raw record declares, when it parses to one. -/
def rawType (r : RawRecord) : Option EventType := r.type.bind parseEventType

structure IngestResult where
  events : List Event
  dropped : Nat
deriving DecidableEq

/-- Modelled from the spec: stream the records through parseRecord, keeping
well-formed events in order and counting malformed ones as dropped instead of
failing the whole ingest. -/
def ingest (tz : Timezone) (rs : List RawRecord) : IngestResult :=
  ⟨rs.filterMap (fun r => (parseRecord tz r).toOption),
   (rs.filter (fun r => !wellFormed tz r)).length⟩

/-- Keys of a list in order of first occurrence, without repetition. -/
def firstKeys {α : Type} [DecidableEq α] : List α → List α
  | [] => []
  | a :: as => a :: (firstKeys as).filter (fun b => decide (b ≠ a))

/-- Modelled from the spec: the store partitions by event type, with the
high-volume impression type sub-partitioned by day. -/
def partitionKey (e : Event) : EventType × Option Int :=
  (e.type, if e.type = EventType.impression then some e.day else none)

/-- Modelled from the spec: each partition holds exactly the events bearing
its key; partitions are listed in order of first key occurrence. -/
def partitionsOf (evs : List Event) :
    List ((EventType × Option Int) × List Event) :=
  (firstKeys (evs.map partitionKey)).map
    (fun k => (k, evs.filter (fun e => decide (partitionKey e = k))))

def eventsOfType (ps : List ((EventType × Option Int) × List Event))
    (ty : EventType) : List Event :=
  ((ps.filter (fun p => decide (p.1.1 = ty))).map (fun p => p.2)).flatten

def keyInRange (lo hi : Int) : EventType × Option Int → Bool
  | (EventType.impression, some d) => decide (lo ≤ d) && decide (d ≤ hi)
  | _ => false

def eventsInRange (ps : List ((EventType × Option Int) × List Event))
    (lo hi : Int) : List Event :=
  ((ps.filter (fun p => keyInRange lo hi p.1)).map (fun p => p.2)).flatten

def eventsAll (ps : List ((EventType × Option Int) × List Event)) :
    List Event :=
  (ps.map (fun p => p.2)).flatten

/-- Distinct keys in canonical sorted order: the canned queries specify an
explicit sort on the grouping key, so every execution path emits rows in this
order. -/
def keysSorted (l : List String) : List String :=
  List.insertionSort (fun a b => a ≤ b) (firstKeys l)

def sumBy (evs : List Event) (key : Event → String) (val : Event → ℚ)
    (k : String) : ℚ :=
  ((evs.filter (fun e => decide (key e = k))).map val).sum

def countBy (evs : List Event) (key : Event → String) (k : String) : Nat :=
  (evs.filter (fun e => decide (key e = k))).length

def groupSum (evs : List Event) (key : Event → String) (val : Event → ℚ) :
    List (String × ℚ) :=
  (keysSorted (evs.map key)).map (fun k => (k, sumBy evs key val k))

def groupCount (evs : List Event) (key : Event → String) :
    List (String × ℚ) :=
  (keysSorted (evs.map key)).map (fun k => (k, (countBy evs key k : ℚ)))

def groupAvg (evs : List Event) (key : Event → String) (val : Event → ℚ) :
    List (String × ℚ) :=
  (keysSorted (evs.map key)).map
    (fun k => (k, sumBy evs key val k / (countBy evs key k : ℚ)))

def typeName : EventType → String
  | EventType.serve => "serve"
  | EventType.impression => "impression"
  | EventType.click => "click"
  | EventType.purchase => "purchase"

def dayKey (e : Event) : String := toString e.day

def pubKey (e : Event) : String := e.publisher_id

def countryKey (e : Event) : String := e.country

def advTypeKey (e : Event) : String := e.advertiser_id ++ "|" ++ typeName e.type

def minuteKey (e : Event) : String := toString (e.ts.fdiv 60000)

structure Storage where
  events : List Event
  parts : List ((EventType × Option Int) × List Event)
  aggDailyRevenue : List (String × ℚ)
  aggCountryPurchase : List (String × ℚ × ℚ)
  aggAdvertiserType : List (String × ℚ)
  dropped : Nat

/-- Modelled from the spec: prepare ingests the raw records, publishes the
partitioned store, and materializes the fixed aggregate catalogue by scanning
the partitions: daily impression revenue, country purchase sum and count, and
advertiser-by-type counts. -/
def prepare (tz : Timezone) (rs : List RawRecord) : Storage :=
  let ing := ingest tz rs
  let ps := partitionsOf ing.events
  ⟨ing.events, ps,
   groupSum (eventsOfType ps EventType.impression) dayKey (fun e => e.bid_price),
   (keysSorted ((eventsOfType ps EventType.purchase).map countryKey)).map
     (fun k =>
       (k, sumBy (eventsOfType ps EventType.purchase) countryKey
             (fun e => e.total_price) k,
           (countBy (eventsOfType ps EventType.purchase) countryKey k : ℚ))),
   groupCount (eventsAll ps) advTypeKey,
   ing.dropped⟩

/-- Modelled from the spec: the fixed catalogue of canned logical queries. -/
inductive CannedQuery
  | dailyRevenue
  | publisherRevenue (c : String) (lo hi : Int)
  | countryPurchaseAvg
  | advertiserTypeCounts
  | minuteRevenue (d : Int)
deriving DecidableEq

/-- Modelled from the spec: the full-scan path reads every ingested event,
filters, groups and aggregates. -/
def evalFull (st : Storage) : CannedQuery → List (String × ℚ)
  | CannedQuery.dailyRevenue =>
    groupSum (st.events.filter (fun e => decide (e.type = EventType.impression)))
      dayKey (fun e => e.bid_price)
  | CannedQuery.publisherRevenue c lo hi =>
    groupSum (st.events.filter (fun e =>
        decide (e.type = EventType.impression) && decide (lo ≤ e.day) &&
          decide (e.day ≤ hi) && decide (e.country = c)))
      pubKey (fun e => e.bid_price)
  | CannedQuery.countryPurchaseAvg =>
    groupAvg (st.events.filter (fun e => decide (e.type = EventType.purchase)))
      countryKey (fun e => e.total_price)
  | CannedQuery.advertiserTypeCounts => groupCount st.events advTypeKey
  | CannedQuery.minuteRevenue d =>
    groupSum (st.events.filter (fun e =>
        decide (e.type = EventType.impression) && decide (e.day = d)))
      minuteKey (fun e => e.bid_price)

/-- Modelled from the spec: the partition-pruned path reads only the
partitions the filter admits, applies any residual filter, then groups and
aggregates. -/
def evalPruned (st : Storage) : CannedQuery → List (String × ℚ)
  | CannedQuery.dailyRevenue =>
    groupSum (eventsOfType st.parts EventType.impression) dayKey
      (fun e => e.bid_price)
  | CannedQuery.publisherRevenue c lo hi =>
    groupSum ((eventsInRange st.parts lo hi).filter
        (fun e => decide (e.country = c)))
      pubKey (fun e => e.bid_price)
  | CannedQuery.countryPurchaseAvg =>
    groupAvg (eventsOfType st.parts EventType.purchase) countryKey
      (fun e => e.total_price)
  | CannedQuery.advertiserTypeCounts =>
    groupCount (eventsAll st.parts) advTypeKey
  | CannedQuery.minuteRevenue d =>
    groupSum (eventsInRange st.parts d d) minuteKey (fun e => e.bid_price)

/-- Modelled from the spec: the exact-aggregate path answers from a
precomputed rollup when one pattern-matches the query; day-range queries have
no matching rollup and fall through. -/
def evalAgg (st : Storage) : CannedQuery → Option (List (String × ℚ))
  | CannedQuery.dailyRevenue => some st.aggDailyRevenue
  | CannedQuery.countryPurchaseAvg =>
    some (st.aggCountryPurchase.map (fun r => (r.1, r.2.1 / r.2.2)))
  | CannedQuery.advertiserTypeCounts => some st.aggAdvertiserType
  | _ => none

/-- Modelled from the spec: the planner prefers the exact aggregate and falls
back to the pruned scan (itself falling back to a full scan of the relevant
partitions). -/
def planner (st : Storage) (q : CannedQuery) : List (String × ℚ) :=
  match evalAgg st q with
  | some r => r
  | none => evalPruned st q

def querySig : CannedQuery → String
  | CannedQuery.dailyRevenue => "q1"
  | CannedQuery.publisherRevenue c lo hi =>
    "q2|" ++ c ++ "|" ++ toString lo ++ "|" ++ toString hi
  | CannedQuery.countryPurchaseAvg => "q3"
  | CannedQuery.advertiserTypeCounts => "q4"
  | CannedQuery.minuteRevenue d => "q5|" ++ toString d

structure RunState where
  cache : List (String × List (String × ℚ))
  plannerCalls : Nat
deriving DecidableEq

/-- Modelled from the spec: the result cache serves a repeated query signature
directly; on a miss the planner runs once and the result is memoized. The
plannerCalls counter observes planner invocations. -/
def runQuery (st : Storage) (s : RunState) (q : CannedQuery) :
    List (String × ℚ) × RunState :=
  match s.cache.find? (fun p => p.1 == querySig q) with
  | some p => (p.2, s)
  | none =>
    let r := planner st q
    (r, ⟨s.cache ++ [(querySig q, r)], s.plannerCalls + 1⟩)

/-- The ingested purchase events of an input. -/
def purchases (tz : Timezone) (rs : List RawRecord) : List Event :=
  (ingest tz rs).events.filter (fun e => decide (e.type = EventType.purchase))

def purchCount (tz : Timezone) (rs : List RawRecord) (c : String) : Nat :=
  countBy (purchases tz rs) countryKey c

def purchSum (tz : Timezone) (rs : List RawRecord) (c : String) : ℚ :=
  sumBy (purchases tz rs) countryKey (fun e => e.total_price) c

/-- Concrete scenario input: 100 purchase records, US 40 at price 100, JP 30
at price 50, DE 30 at price 100. -/
def scenarioRecords : List RawRecord :=
  List.replicate 40 ⟨some "purchase", some 0, some "p1", some "a1", some "US",
    none, some 100⟩ ++
  (List.replicate 30 ⟨some "purchase", some 1, some "p1", some "a1",
    some "JP", none, some 50⟩ ++
   List.replicate 30 ⟨some "purchase", some 2, some "p1", some "a1",
    some "DE", none, some 100⟩)

/-! Helper lemmas about key listing and partition flattening. -/

theorem firstKeys_mem {α : Type} [DecidableEq α] {l : List α} {a : α} :
    a ∈ firstKeys l ↔ a ∈ l := by
  induction l with
  | nil => simp [firstKeys]
  | cons b bs ih =>
    by_cases h : a = b
    · subst h; simp [firstKeys]
    · simp [firstKeys, List.mem_filter, h, ih]

theorem firstKeys_nodup {α : Type} [DecidableEq α] (l : List α) :
    (firstKeys l).Nodup := by
  induction l with
  | nil => simp [firstKeys]
  | cons b bs ih =>
    refine List.Nodup.cons ?_ (ih.filter _)
    simp [List.mem_filter]

theorem flatten_filter_perm {α κ : Type} [DecidableEq κ] (key : α → κ)
    (K : List κ) : ∀ l : List α, K.Nodup → (∀ x ∈ l, key x ∈ K) →
    ((K.map (fun k => l.filter (fun x => decide (key x = k)))).flatten).Perm l := by
  induction K with
  | nil =>
    intro l _ hcov
    have hl : l = [] := by
      cases l with
      | nil => rfl
      | cons x xs => exact absurd (hcov x (by simp)) (by simp)
    subst hl; simp
  | cons k K ih =>
    intro l hnd hcov
    have hknotin : k ∉ K := (List.nodup_cons.mp hnd).1
    have hrest : ∀ k' ∈ K,
        l.filter (fun x => decide (key x = k')) =
        (l.filter (fun x => !decide (key x = k))).filter
          (fun x => decide (key x = k')) := by
      intro k' hk'
      rw [List.filter_filter]
      apply List.filter_congr
      intro x _
      by_cases hx : key x = k'
      · have hk'k : ¬ k' = k := fun h => hknotin (h ▸ hk')
        have hne : ¬ key x = k := fun h => hk'k (hx.symm.trans h)
        simp [hx, hne, hk'k]
      · simp [hx]
    have hmap : K.map (fun k' => l.filter (fun x => decide (key x = k'))) =
        K.map (fun k' => (l.filter (fun x => !decide (key x = k))).filter
          (fun x => decide (key x = k'))) :=
      List.map_congr_left hrest
    have hcov' : ∀ x ∈ l.filter (fun x => !decide (key x = k)), key x ∈ K := by
      intro x hx
      rcases List.mem_filter.mp hx with ⟨hxl, hxk⟩
      have := hcov x hxl
      simp only [List.mem_cons] at this
      rcases this with h | h
      · simp [h] at hxk
      · exact h
    have hperm := ih (l.filter (fun x => !decide (key x = k)))
      (List.nodup_cons.mp hnd).2 hcov'
    simp only [List.map_cons, List.flatten_cons]
    rw [hmap]
    exact (hperm.append_left _).trans (List.filter_append_perm _ l)

theorem eventsOfType_perm (evs : List Event) (ty : EventType) :
    (eventsOfType (partitionsOf evs) ty).Perm
      (evs.filter (fun e => decide (e.type = ty))) := by
  unfold eventsOfType partitionsOf
  rw [List.filter_map, List.map_map]
  simp only [Function.comp_def]
  have hswap : ∀ k ∈ (firstKeys (evs.map partitionKey)).filter
      (fun k => decide (k.1 = ty)),
      evs.filter (fun e => decide (partitionKey e = k)) =
      (evs.filter (fun e => decide (e.type = ty))).filter
        (fun e => decide (partitionKey e = k)) := by
    intro k hk
    have hkty : k.1 = ty := by
      have := (List.mem_filter.mp hk).2
      simpa using this
    rw [List.filter_filter]
    apply List.filter_congr
    intro e _
    by_cases he : partitionKey e = k
    · have hty : e.type = ty := by
        have : (partitionKey e).1 = k.1 := congrArg Prod.fst he
        rw [hkty] at this
        exact this
      simp [he, hty]
    · simp [he]
  rw [List.map_congr_left hswap]
  apply flatten_filter_perm partitionKey
  · exact (firstKeys_nodup _).filter _
  · intro x hx
    rcases List.mem_filter.mp hx with ⟨hxe, hxt⟩
    refine List.mem_filter.mpr
      ⟨firstKeys_mem.mpr (List.mem_map_of_mem _ hxe), ?_⟩
    have hty : x.type = ty := by simpa using hxt
    simp [partitionKey, hty]

theorem eventsInRange_perm (evs : List Event) (lo hi : Int) :
    (eventsInRange (partitionsOf evs) lo hi).Perm
      (evs.filter (fun e => decide (e.type = EventType.impression) &&
        decide (lo ≤ e.day) && decide (e.day ≤ hi))) := by
  unfold eventsInRange partitionsOf
  rw [List.filter_map, List.map_map]
  simp only [Function.comp_def]
  have hswap : ∀ k ∈ (firstKeys (evs.map partitionKey)).filter
      (fun k => keyInRange lo hi k),
      evs.filter (fun e => decide (partitionKey e = k)) =
      (evs.filter (fun e => decide (e.type = EventType.impression) &&
        decide (lo ≤ e.day) && decide (e.day ≤ hi))).filter
        (fun e => decide (partitionKey e = k)) := by
    intro k hk
    have hkr : keyInRange lo hi k = true := (List.mem_filter.mp hk).2
    rw [List.filter_filter]
    apply List.filter_congr
    intro e _
    by_cases he : partitionKey e = k
    · obtain ⟨ty0, od⟩ := k
      cases ty0 with
      | impression =>
        cases od with
        | none => simp [keyInRange] at hkr
        | some d =>
          have hkr' : lo ≤ d ∧ d ≤ hi := by simpa [keyInRange] using hkr
          have h1 : e.type = EventType.impression := congrArg Prod.fst he
          have h2 : (if e.type = EventType.impression then some e.day else none) =
              some d := congrArg Prod.snd he
          rw [if_pos h1] at h2
          have h3 : e.day = d := Option.some.inj h2
          simp [he, h1, h3, hkr'.1, hkr'.2]
      | serve => simp [keyInRange] at hkr
      | click => simp [keyInRange] at hkr
      | purchase => simp [keyInRange] at hkr
    · simp [he]
  rw [List.map_congr_left hswap]
  apply flatten_filter_perm partitionKey
  · exact (firstKeys_nodup _).filter _
  · intro x hx
    have hx' := List.mem_filter.mp hx
    have hxi : (x.type = EventType.impression ∧ lo ≤ x.day) ∧ x.day ≤ hi := by
      simpa using hx'.2
    refine List.mem_filter.mpr
      ⟨firstKeys_mem.mpr (List.mem_map_of_mem _ hx'.1), ?_⟩
    simp [partitionKey, keyInRange, hxi.1.1, hxi.1.2, hxi.2]

theorem eventsAll_perm (evs : List Event) :
    (eventsAll (partitionsOf evs)).Perm evs := by
  unfold eventsAll partitionsOf
  rw [List.map_map]
  simp only [Function.comp_def]
  exact flatten_filter_perm partitionKey _ evs (firstKeys_nodup _)
    (fun x hx => firstKeys_mem.mpr (List.mem_map_of_mem _ hx))

theorem firstKeys_toFinset {l l' : List String} (h : l.Perm l') :
    (firstKeys l).toFinset = (firstKeys l').toFinset := by
  apply Finset.ext
  intro a
  simp only [List.mem_toFinset, firstKeys_mem]
  exact ⟨fun ha => h.mem_iff.mp ha, fun ha => h.mem_iff.mpr ha⟩

theorem keysSorted_perm {l l' : List String} (h : l.Perm l') :
    keysSorted l = keysSorted l' := by
  unfold keysSorted
  have hperm : (List.insertionSort (fun a b => a ≤ b) (firstKeys l)).Perm
      (List.insertionSort (fun a b => a ≤ b) (firstKeys l')) :=
    (List.perm_insertionSort _ _).trans
      ((List.perm_of_nodup_nodup_toFinset_eq (firstKeys_nodup _)
        (firstKeys_nodup _) (firstKeys_toFinset h)).trans
        (List.perm_insertionSort _ _).symm)
  exact List.eq_of_perm_of_sorted hperm (List.sorted_insertionSort _ _)
    (List.sorted_insertionSort _ _)

theorem sumBy_perm {evs evs' : List Event} (h : evs.Perm evs')
    (key : Event → String) (val : Event → ℚ) (k : String) :
    sumBy evs key val k = sumBy evs' key val k :=
  ((h.filter _).map val).sum_eq

theorem countBy_perm {evs evs' : List Event} (h : evs.Perm evs')
    (key : Event → String) (k : String) :
    countBy evs key k = countBy evs' key k :=
  (h.filter _).length_eq

theorem groupSum_perm {evs evs' : List Event} (h : evs.Perm evs')
    (key : Event → String) (val : Event → ℚ) :
    groupSum evs key val = groupSum evs' key val := by
  unfold groupSum
  rw [keysSorted_perm (h.map key)]
  exact List.map_congr_left (fun k _ => by rw [sumBy_perm h])

theorem groupCount_perm {evs evs' : List Event} (h : evs.Perm evs')
    (key : Event → String) :
    groupCount evs key = groupCount evs' key := by
  unfold groupCount
  rw [keysSorted_perm (h.map key)]
  exact List.map_congr_left (fun k _ => by rw [countBy_perm h])

theorem groupAvg_perm {evs evs' : List Event} (h : evs.Perm evs')
    (key : Event → String) (val : Event → ℚ) :
    groupAvg evs key val = groupAvg evs' key val := by
  unfold groupAvg
  rw [keysSorted_perm (h.map key)]
  exact List.map_congr_left (fun k _ => by rw [sumBy_perm h, countBy_perm h])

theorem parseRecord_ok_facts {tz : Timezone} {r : RawRecord} {e : Event}
    (h : parseRecord tz r = Except.ok e) :
    r.ts = some e.ts ∧ e.day = localDay tz e.ts ∧ rawType r = some e.type := by
  obtain ⟨t, ots, pid, aid, c, bp, tp⟩ := r
  cases t with
  | none => simp [parseRecord] at h
  | some tstr =>
    cases ots with
    | none => simp [parseRecord] at h
    | some ts =>
      cases pid with
      | none => simp [parseRecord] at h
      | some pid' =>
        cases aid with
        | none => simp [parseRecord] at h
        | some aid' =>
          cases c with
          | none => simp [parseRecord] at h
          | some c' =>
            cases hpt : parseEventType tstr with
            | none => simp [parseRecord, hpt] at h
            | some ty =>
              cases ty with
              | impression =>
                cases bp with
                | none => simp [parseRecord, hpt] at h
                | some b =>
                  simp only [parseRecord, hpt, Except.ok.injEq] at h
                  subst h
                  simp [rawType, hpt]
              | purchase =>
                cases tp with
                | none => simp [parseRecord, hpt] at h
                | some t' =>
                  simp only [parseRecord, hpt, Except.ok.injEq] at h
                  subst h
                  simp [rawType, hpt]
              | serve =>
                simp only [parseRecord, hpt, Except.ok.injEq] at h
                subst h
                simp [rawType, hpt]
              | click =>
                simp only [parseRecord, hpt, Except.ok.injEq] at h
                subst h
                simp [rawType, hpt]

theorem wellFormed_country_none {tz : Timezone} {r : RawRecord}
    (h : r.country = none) : wellFormed tz r = false := by
  obtain ⟨t, ots, pid, aid, c, bp, tp⟩ := r
  subst h
  cases t <;> cases ots <;> cases pid <;> cases aid <;>
    simp [wellFormed, parseRecord, Except.toOption]

theorem ingest_events_length (tz : Timezone) (rs : List RawRecord) :
    (ingest tz rs).events.length =
      (rs.filter (fun r => wellFormed tz r)).length := by
  simp only [ingest]
  rw [List.length_filterMap_eq_countP, List.countP_eq_length_filter]
  rfl

theorem length_filter_split {α : Type} (p : α → Bool) (l : List α) :
    l.length = (l.filter p).length + (l.filter (fun a => !p a)).length := by
  have h := (List.filter_append_perm p l).length_eq
  rw [List.length_append] at h
  omega

theorem setSession_mem {m : Sessions} {uid : String} {s : TranscriptionSession}
    {p : String × TranscriptionSession} (h : p ∈ setSession m uid s) :
    p ∈ m ∨ p = (uid, s) := by
  induction m with
  | nil => simpa [setSession] using h
  | cons q rest ih =>
    by_cases hq : (q.1 == uid) = true
    · rw [setSession, if_pos hq] at h
      rcases List.mem_cons.mp h with h | h
      · exact Or.inr h
      · exact Or.inl (List.mem_cons_of_mem _ h)
    · rw [setSession, if_neg hq] at h
      rcases List.mem_cons.mp h with h | h
      · exact Or.inl (h ▸ List.mem_cons_self _ _)
      · rcases ih h with h | h
        · exact Or.inl (List.mem_cons_of_mem _ h)
        · exact Or.inr h

theorem getSession_mem {m : Sessions} {uid : String} {s : TranscriptionSession}
    (h : getSession m uid = some s) : ∃ p ∈ m, p.2 = s := by
  unfold getSession at h
  cases hf : m.find? (fun p => p.1 == uid) with
  | none => rw [hf] at h; simp at h
  | some q =>
    rw [hf] at h
    simp only [Option.map_some', Option.some.injEq] at h
    exact ⟨q, List.mem_of_find?_eq_some hf, h⟩

theorem postOmiAudio_snd (st : Sessions) (req : AudioRequest) (now : Nat) :
    (postOmiAudio st req now).2 = st ∨
    ∃ uid data, (postOmiAudio st req now).2 =
      setSession st uid (updateSession
        ((getSession st uid).getD ⟨[], [], now⟩) data now) := by
  unfold postOmiAudio
  split
  · exact Or.inl rfl
  · split
    · exact Or.inl rfl
    · split
      · exact Or.inl rfl
      · split
        · exact Or.inl rfl
        · split
          · exact Or.inl rfl
          · exact Or.inr ⟨_, _, rfl⟩

/-- Claim C2: checkForDuplicate returns a non-null duplicate exactly when a
name-similar person has an embedding with cosine similarity above 0.7, or a
merely name-similar person exists, or, failing any name match, some stored
embedding has cosine similarity above 0.8. -/
theorem checkForDuplicate_iff (db : FaceDB) (name : String) (emb : List ℚ) :
    (checkForDuplicate db name emb).isSome = true ↔
      ((∃ p ∈ db.persons, areNamesSimilar p.name name = true ∧
          ∃ fe ∈ personEmbs db p.id, cosineSimGt emb fe.emb (7 / 10) = true) ∨
       (∃ p ∈ db.persons, areNamesSimilar p.name name = true) ∨
       ((∀ p ∈ db.persons, areNamesSimilar p.name name = false) ∧
          ∃ fe ∈ db.faceEmbs, cosineSimGt emb fe.emb (8 / 10) = true)) := by
  cases hp : db.persons.find? (fun p => areNamesSimilar p.name name) with
  | some person =>
    have hmem : person ∈ db.persons := List.mem_of_find?_eq_some hp
    have hsim : areNamesSimilar person.name name = true := by
      have hs := List.find?_some hp
      simpa using hs
    have hss : (checkForDuplicate db name emb).isSome = true := by
      unfold checkForDuplicate
      rw [hp]
      cases hq : (personEmbs db person.id).find?
          (fun fe => cosineSimGt emb fe.emb (7 / 10)) <;> simp [hq]
    exact ⟨fun _ => Or.inr (Or.inl ⟨person, hmem, hsim⟩), fun _ => hss⟩
  | none =>
    have hnone : ∀ p ∈ db.persons, areNamesSimilar p.name name = false := by
      intro p hp'
      have h := List.find?_eq_none.mp hp p hp'
      simpa using h
    cases hq : db.faceEmbs.find? (fun fe => cosineSimGt emb fe.emb (8 / 10)) with
    | some fe =>
      have hss : (checkForDuplicate db name emb).isSome = true := by
        unfold checkForDuplicate
        rw [hp, hq]
        simp
      have hs : cosineSimGt emb fe.emb (8 / 10) = true := by
        have := List.find?_some hq
        simpa using this
      exact ⟨fun _ => Or.inr (Or.inr ⟨hnone, fe, List.mem_of_find?_eq_some hq, hs⟩),
        fun _ => hss⟩
    | none =>
      constructor
      · intro h
        unfold checkForDuplicate at h
        rw [hp, hq] at h
        simp at h
      · rintro (⟨p, hp', hs, -⟩ | ⟨p, hp', hs⟩ | ⟨-, fe, hfe, hs⟩)
        · rw [hnone p hp'] at hs; simp at hs
        · rw [hnone p hp'] at hs; simp at hs
        · have h8 := List.find?_eq_none.mp hq fe hfe
          simp [hs] at h8

/-- Claim C9: after any POST to /omi/audio, every stored session buffer holds
at most 6 chunks, and the push-then-shift update keeps a suffix (the most
recent chunks) of the extended buffer, evicting the oldest chunk when a 7th
is pushed. -/
theorem audio_buffer_bounded (st : Sessions) (req : AudioRequest) (now : Nat)
    (hinv : ∀ p ∈ st, p.2.chunks.length ≤ 6) :
    (∀ p ∈ (postOmiAudio st req now).2, p.2.chunks.length ≤ 6) ∧
    (∀ (chunks : List Chunk) (c : Chunk), chunks.length ≤ 6 →
      (pushChunk chunks c).length ≤ 6 ∧
      (pushChunk chunks c).IsSuffix (chunks ++ [c]) ∧
      (chunks.length = 6 → pushChunk chunks c = (chunks ++ [c]).tail)) := by
  have hpush : ∀ (chunks : List Chunk) (c : Chunk), chunks.length ≤ 6 →
      (pushChunk chunks c).length ≤ 6 ∧
      (pushChunk chunks c).IsSuffix (chunks ++ [c]) ∧
      (chunks.length = 6 → pushChunk chunks c = (chunks ++ [c]).tail) := by
    intro chunks c hle
    have hlen : (chunks ++ [c]).length = chunks.length + 1 := by simp
    unfold pushChunk
    by_cases hgt : (chunks ++ [c]).length > 6
    · rw [if_pos hgt]
      refine ⟨?_, List.tail_suffix _, fun _ => rfl⟩
      rw [List.length_tail]
      omega
    · rw [if_neg hgt]
      refine ⟨by omega, List.suffix_refl _, fun h6 => ?_⟩
      exact absurd (by omega : (chunks ++ [c]).length > 6) hgt
  refine ⟨?_, hpush⟩
  rcases postOmiAudio_snd st req now with h | ⟨uid, data, h⟩
  · rw [h]; exact hinv
  · rw [h]
    intro p hp
    rcases setSession_mem hp with hq | hq
    · exact hinv p hq
    · subst hq
      show (updateSession _ data now).chunks.length ≤ 6
      unfold updateSession
      cases hg : getSession st uid with
      | none =>
        simp only [hg, Option.getD_none]
        exact (hpush [] data (by simp)).1
      | some s =>
        simp only [hg, Option.getD_some]
        obtain ⟨q, hqm, hqs⟩ := getSession_mem hg
        exact (hpush s.chunks data (hqs ▸ hinv q hqm)).1

/-- Witness for audio_buffer_bounded: the empty sessions map satisfies the
invariant, and a valid request preserves it. -/
theorem audio_buffer_bounded_witness :
    (∀ p ∈ ([] : Sessions), p.2.chunks.length ≤ 6) ∧
    ((∀ p ∈ (postOmiAudio [] (⟨QueryParam.str "u", QueryParam.str "16000",
        ReqBody.buffer [1, 2]⟩ : AudioRequest) 5).2, p.2.chunks.length ≤ 6) ∧
     (∀ (chunks : List Chunk) (c : Chunk), chunks.length ≤ 6 →
       (pushChunk chunks c).length ≤ 6 ∧
       (pushChunk chunks c).IsSuffix (chunks ++ [c]) ∧
       (chunks.length = 6 → pushChunk chunks c = (chunks ++ [c]).tail))) :=
  ⟨by simp, audio_buffer_bounded [] _ 5 (by simp)⟩

/-- Claim C10: a request with a missing or non-single-string uid, or a
missing, non-numeric or non-positive sample_rate, is answered with 400 and
leaves the sessions map unchanged. -/
theorem omi_audio_validation (st : Sessions) (req : AudioRequest) (now : Nat)
    (h : req.uid = QueryParam.missing ∨ (∃ ss, req.uid = QueryParam.arr ss) ∨
      req.sample_rate = QueryParam.missing ∨ jsNumber req.sample_rate = none ∨
      ∃ q, jsNumber req.sample_rate = some q ∧ q ≤ 0) :
    postOmiAudio st req now = (400, st) := by
  rcases h with h | ⟨ss, h⟩ | h | h | ⟨q, hq, hq0⟩
  · unfold postOmiAudio; rw [h]; rfl
  · unfold postOmiAudio; rw [h]; rfl
  · unfold postOmiAudio
    cases hu : uidString req.uid with
    | none => rfl
    | some uid => rw [h]; rfl
  · unfold postOmiAudio
    split
    · rfl
    · split
      · rfl
      · split
        · rfl
        · rename_i sr hj
          rw [h] at hj
          cases hj
  · unfold postOmiAudio
    split
    · rfl
    · split
      · rfl
      · split
        · rfl
        · rename_i sr hj
          rw [hq] at hj
          have hsr : sr = q := (Option.some.inj hj).symm
          subst hsr
          rw [if_pos hq0]

/-- Witness for omi_audio_validation: a request with a missing uid. -/
theorem omi_audio_validation_witness :
    ((⟨QueryParam.missing, QueryParam.str "16000",
        ReqBody.buffer [1]⟩ : AudioRequest).uid = QueryParam.missing ∨
      (∃ ss, (⟨QueryParam.missing, QueryParam.str "16000",
        ReqBody.buffer [1]⟩ : AudioRequest).uid = QueryParam.arr ss) ∨
      (⟨QueryParam.missing, QueryParam.str "16000",
        ReqBody.buffer [1]⟩ : AudioRequest).sample_rate = QueryParam.missing ∨
      jsNumber (⟨QueryParam.missing, QueryParam.str "16000",
        ReqBody.buffer [1]⟩ : AudioRequest).sample_rate = none ∨
      ∃ q, jsNumber (⟨QueryParam.missing, QueryParam.str "16000",
        ReqBody.buffer [1]⟩ : AudioRequest).sample_rate = some q ∧ q ≤ 0) ∧
    postOmiAudio [] (⟨QueryParam.missing, QueryParam.str "16000",
      ReqBody.buffer [1]⟩ : AudioRequest) 0 = (400, []) :=
  ⟨Or.inl rfl, omi_audio_validation [] _ 0 (Or.inl rfl)⟩

/-- Claim C1: for every canned query, the partition-pruned scan agrees with
the full scan, and whenever a precomputed aggregate matches the query, the
exact-aggregate path agrees with the full scan as well; equality is exact in
rational arithmetic, hence within any floating-point tolerance. -/
theorem planner_paths_agree (tz : Timezone) (rs : List RawRecord)
    (q : CannedQuery) :
    evalPruned (prepare tz rs) q = evalFull (prepare tz rs) q ∧
    (evalAgg (prepare tz rs) q = none ∨
      evalAgg (prepare tz rs) q = some (evalFull (prepare tz rs) q)) := by
  cases q with
  | dailyRevenue =>
    have h : groupSum (eventsOfType (partitionsOf (ingest tz rs).events)
          EventType.impression) dayKey (fun e => e.bid_price) =
        groupSum ((ingest tz rs).events.filter
          (fun e => decide (e.type = EventType.impression))) dayKey
          (fun e => e.bid_price) :=
      groupSum_perm (eventsOfType_perm _ _) _ _
    exact ⟨h, Or.inr (congrArg some h)⟩
  | countryPurchaseAvg =>
    have h : groupAvg (eventsOfType (partitionsOf (ingest tz rs).events)
          EventType.purchase) countryKey (fun e => e.total_price) =
        groupAvg ((ingest tz rs).events.filter
          (fun e => decide (e.type = EventType.purchase))) countryKey
          (fun e => e.total_price) :=
      groupAvg_perm (eventsOfType_perm _ _) _ _
    refine ⟨h, Or.inr ?_⟩
    show some (((keysSorted ((eventsOfType (partitionsOf (ingest tz rs).events)
        EventType.purchase).map countryKey)).map
        (fun k => (k, sumBy (eventsOfType (partitionsOf (ingest tz rs).events)
            EventType.purchase) countryKey (fun e => e.total_price) k,
          (countBy (eventsOfType (partitionsOf (ingest tz rs).events)
            EventType.purchase) countryKey k : ℚ)))).map
        (fun r => (r.1, r.2.1 / r.2.2))) = _
    rw [List.map_map]
    exact congrArg some h
  | advertiserTypeCounts =>
    have h : groupCount (eventsAll (partitionsOf (ingest tz rs).events))
          advTypeKey = groupCount (ingest tz rs).events advTypeKey :=
      groupCount_perm (eventsAll_perm _) _
    exact ⟨h, Or.inr (congrArg some h)⟩
  | publisherRevenue c lo hi =>
    have hp1 := (eventsInRange_perm (ingest tz rs).events lo hi).filter
      (fun e => decide (e.country = c))
    have heq : ((ingest tz rs).events.filter (fun e =>
        decide (e.type = EventType.impression) && decide (lo ≤ e.day) &&
          decide (e.day ≤ hi))).filter (fun e => decide (e.country = c)) =
        (ingest tz rs).events.filter (fun e =>
        decide (e.type = EventType.impression) && decide (lo ≤ e.day) &&
          decide (e.day ≤ hi) && decide (e.country = c)) := by
      rw [List.filter_filter]
      apply List.filter_congr
      intro e _
      cases decide (e.type = EventType.impression) <;>
        cases decide (lo ≤ e.day) <;> cases decide (e.day ≤ hi) <;>
        cases decide (e.country = c) <;> rfl
    exact ⟨groupSum_perm (heq ▸ hp1) pubKey (fun e => e.bid_price), Or.inl rfl⟩
  | minuteRevenue d =>
    have hp1 := eventsInRange_perm (ingest tz rs).events d d
    have heq : (ingest tz rs).events.filter (fun e =>
        decide (e.type = EventType.impression) && decide (d ≤ e.day) &&
          decide (e.day ≤ d)) =
        (ingest tz rs).events.filter (fun e =>
        decide (e.type = EventType.impression) && decide (e.day = d)) := by
      apply List.filter_congr
      intro e _
      by_cases hx : e.day = d
      · simp [hx]
      · have h1 : ¬(d ≤ e.day) ∨ ¬(e.day ≤ d) := by omega
        rcases h1 with h1 | h1 <;> simp [hx, h1]
    exact ⟨groupSum_perm (heq ▸ hp1) minuteKey (fun e => e.bid_price), Or.inl rfl⟩

/-- Claim C8: the result cache is transparent: issuing the same query twice
returns identical results on both calls, and the second call leaves the run
state (including the planner invocation counter) unchanged, so the planner's
scan paths are not re-invoked. -/
theorem cache_transparent (st : Storage) (s : RunState) (q : CannedQuery) :
    (runQuery st (runQuery st s q).2 q).1 = (runQuery st s q).1 ∧
    (runQuery st (runQuery st s q).2 q).2 = (runQuery st s q).2 := by
  cases hf : s.cache.find? (fun p => p.1 == querySig q) with
  | some p =>
    have h1 : runQuery st s q = (p.2, s) := by
      unfold runQuery
      rw [hf]
    rw [h1]
    exact ⟨by rw [h1], by rw [h1]⟩
  | none =>
    have hfind : (s.cache ++ [(querySig q, planner st q)]).find?
        (fun p => p.1 == querySig q) = some (querySig q, planner st q) := by
      rw [List.find?_append, hf]
      simp
    have h1 : runQuery st s q = (planner st q,
        ⟨s.cache ++ [(querySig q, planner st q)], s.plannerCalls + 1⟩) := by
      unfold runQuery
      rw [hf]
    have h2 : runQuery st (⟨s.cache ++ [(querySig q, planner st q)],
        s.plannerCalls + 1⟩ : RunState) q = (planner st q,
        ⟨s.cache ++ [(querySig q, planner st q)], s.plannerCalls + 1⟩) := by
      unfold runQuery
      simp only [hfind]
    rw [h1, h2]
    exact ⟨rfl, rfl⟩

/-- Claim C6: after prepare, the partitions of each event type are disjoint
and complete: the row count summed across the partitions of a type equals the
count of ingested events of that type, which equals the raw rows of that type
minus the dropped malformed rows of that type; and distinct partitions share
no event occurrence. -/
theorem partition_complete (tz : Timezone) (rs : List RawRecord)
    (ty : EventType) :
    ((((partitionsOf (ingest tz rs).events).filter
        (fun p => decide (p.1.1 = ty))).map (fun p => p.2.length)).sum =
      ((ingest tz rs).events.filter (fun e => decide (e.type = ty))).length ∧
     ((ingest tz rs).events.filter (fun e => decide (e.type = ty))).length =
      (rs.filter (fun r => decide (rawType r = some ty))).length -
        (rs.filter (fun r => decide (rawType r = some ty) &&
          !wellFormed tz r)).length) ∧
    (partitionsOf (ingest tz rs).events).Pairwise
      (fun p q => ∀ e, e ∈ p.2 → e ∉ q.2) := by
  have hA : (((partitionsOf (ingest tz rs).events).filter
      (fun p => decide (p.1.1 = ty))).map (fun p => p.2.length)).sum =
      ((ingest tz rs).events.filter (fun e => decide (e.type = ty))).length := by
    have h1 := (eventsOfType_perm (ingest tz rs).events ty).length_eq
    rw [← h1]
    unfold eventsOfType
    rw [List.length_flatten, List.map_map]
    rfl
  have h1 : ((ingest tz rs).events.filter
      (fun e => decide (e.type = ty))).length =
      (rs.filter (fun r => wellFormed tz r &&
        decide (rawType r = some ty))).length := by
    show ((rs.filterMap (fun r => (parseRecord tz r).toOption)).filter
      (fun e => decide (e.type = ty))).length = _
    rw [List.filter_filterMap, List.length_filterMap_eq_countP,
      List.countP_eq_length_filter]
    apply congrArg List.length
    apply List.filter_congr
    intro r _
    cases hw : parseRecord tz r with
    | error err =>
      have hwf : wellFormed tz r = false := by
        simp [wellFormed, hw, Except.toOption]
      simp [hw, Except.toOption, hwf, Option.filter]
    | ok e =>
      have hwf : wellFormed tz r = true := by
        simp [wellFormed, hw, Except.toOption]
      have hrt : rawType r = some e.type := (parseRecord_ok_facts hw).2.2
      by_cases hty : e.type = ty
      · simp [hw, Except.toOption, hwf, hrt, Option.filter, hty]
      · have hrt' : ¬(rawType r = some ty) := by
          rw [hrt]
          intro hcon
          exact hty (Option.some.inj hcon)
        simp [hw, Except.toOption, hwf, hrt', Option.filter, hty]
  have h2 : (rs.filter (fun r => wellFormed tz r &&
      decide (rawType r = some ty))).length +
      (rs.filter (fun r => decide (rawType r = some ty) &&
        !wellFormed tz r)).length =
      (rs.filter (fun r => decide (rawType r = some ty))).length := by
    have hsplit := length_filter_split (fun r => wellFormed tz r)
      (rs.filter (fun r => decide (rawType r = some ty)))
    rw [List.filter_filter, List.filter_filter] at hsplit
    have hc2 : rs.filter (fun r => decide (rawType r = some ty) &&
        !wellFormed tz r) =
        rs.filter (fun r => !wellFormed tz r &&
          decide (rawType r = some ty)) := by
      apply List.filter_congr
      intro r _
      cases wellFormed tz r <;> cases decide (rawType r = some ty) <;> rfl
    rw [hc2]
    omega
  have hC : (partitionsOf (ingest tz rs).events).Pairwise
      (fun p q => ∀ e, e ∈ p.2 → e ∉ q.2) := by
    unfold partitionsOf
    rw [List.pairwise_map]
    refine (firstKeys_nodup _).imp ?_
    intro a b hab e hea heb
    rcases List.mem_filter.mp hea with ⟨-, ha⟩
    rcases List.mem_filter.mp heb with ⟨-, hb⟩
    exact hab ((of_decide_eq_true ha).symm.trans (of_decide_eq_true hb))
  exact ⟨⟨hA, by omega⟩, hC⟩

/-- Claim C5: prepare is deterministic and idempotent: builds that scan the
same input in any two orders (in particular, two runs over the identical
input) materialize identical aggregate tables, row for row, because the
rational-valued accumulation is order-independent. -/
theorem prepare_deterministic (tz : Timezone) (rs rs' : List RawRecord)
    (h : rs.Perm rs') :
    (prepare tz rs).aggDailyRevenue = (prepare tz rs').aggDailyRevenue ∧
    (prepare tz rs).aggCountryPurchase = (prepare tz rs').aggCountryPurchase ∧
    (prepare tz rs).aggAdvertiserType = (prepare tz rs').aggAdvertiserType := by
  have hev : (ingest tz rs).events.Perm (ingest tz rs').events :=
    h.filterMap _
  have himp : (eventsOfType (partitionsOf (ingest tz rs).events)
      EventType.impression).Perm
      (eventsOfType (partitionsOf (ingest tz rs').events)
        EventType.impression) :=
    (eventsOfType_perm _ _).trans ((hev.filter _).trans
      (eventsOfType_perm _ _).symm)
  have hpur : (eventsOfType (partitionsOf (ingest tz rs).events)
      EventType.purchase).Perm
      (eventsOfType (partitionsOf (ingest tz rs').events)
        EventType.purchase) :=
    (eventsOfType_perm _ _).trans ((hev.filter _).trans
      (eventsOfType_perm _ _).symm)
  have hall : (eventsAll (partitionsOf (ingest tz rs).events)).Perm
      (eventsAll (partitionsOf (ingest tz rs').events)) :=
    (eventsAll_perm _).trans (hev.trans (eventsAll_perm _).symm)
  refine ⟨groupSum_perm himp _ _, ?_, groupCount_perm hall _⟩
  show (keysSorted ((eventsOfType (partitionsOf (ingest tz rs).events)
      EventType.purchase).map countryKey)).map
      (fun k => (k, sumBy (eventsOfType (partitionsOf (ingest tz rs).events)
          EventType.purchase) countryKey (fun e => e.total_price) k,
        (countBy (eventsOfType (partitionsOf (ingest tz rs).events)
          EventType.purchase) countryKey k : ℚ))) = _
  rw [keysSorted_perm (hpur.map countryKey)]
  apply List.map_congr_left
  intro k _
  rw [sumBy_perm hpur, countBy_perm hpur]

/-- Witness for prepare_deterministic: two scan orders of a two-record input. -/
theorem prepare_deterministic_witness :
    ([(⟨some "purchase", some 0, some "p", some "a", some "US", none,
        some 100⟩ : RawRecord),
      ⟨some "impression", some 1, some "p", some "a", some "JP", some 2,
        none⟩].Perm
      [⟨some "impression", some 1, some "p", some "a", some "JP", some 2,
        none⟩,
       ⟨some "purchase", some 0, some "p", some "a", some "US", none,
        some 100⟩]) ∧
    ((prepare losAngelesStd
        [⟨some "purchase", some 0, some "p", some "a", some "US", none,
          some 100⟩,
         ⟨some "impression", some 1, some "p", some "a", some "JP", some 2,
          none⟩]).aggDailyRevenue =
      (prepare losAngelesStd
        [⟨some "impression", some 1, some "p", some "a", some "JP", some 2,
          none⟩,
         ⟨some "purchase", some 0, some "p", some "a", some "US", none,
          some 100⟩]).aggDailyRevenue ∧
     (prepare losAngelesStd
        [⟨some "purchase", some 0, some "p", some "a", some "US", none,
          some 100⟩,
         ⟨some "impression", some 1, some "p", some "a", some "JP", some 2,
          none⟩]).aggCountryPurchase =
      (prepare losAngelesStd
        [⟨some "impression", some 1, some "p", some "a", some "JP", some 2,
          none⟩,
         ⟨some "purchase", some 0, some "p", some "a", some "US", none,
          some 100⟩]).aggCountryPurchase ∧
     (prepare losAngelesStd
        [⟨some "purchase", some 0, some "p", some "a", some "US", none,
          some 100⟩,
         ⟨some "impression", some 1, some "p", some "a", some "JP", some 2,
          none⟩]).aggAdvertiserType =
      (prepare losAngelesStd
        [⟨some "impression", some 1, some "p", some "a", some "JP", some 2,
          none⟩,
         ⟨some "purchase", some 0, some "p", some "a", some "US", none,
          some 100⟩]).aggAdvertiserType) :=
  ⟨List.Perm.swap _ _ _, prepare_deterministic losAngelesStd _ _
    (List.Perm.swap _ _ _)⟩

/-- Claim C4: a parsed event is bucketed into the calendar day of its
timestamp in the target timezone; when that day differs from the UTC day, the
event's day bucket (used by partitioning) is the target-timezone day and not
the UTC day. -/
theorem day_bucket_timezone (tz : Timezone) (r : RawRecord) (ts : Int)
    (e : Event) (hts : r.ts = some ts) (hok : parseRecord tz r = Except.ok e)
    (hdiff : localDay tz ts ≠ utcDay ts) :
    e.day = localDay tz ts ∧ e.day ≠ utcDay ts ∧
    partitionKey e = (e.type,
      if e.type = EventType.impression then some (localDay tz ts)
      else none) := by
  obtain ⟨h1, h2, -⟩ := parseRecord_ok_facts hok
  have hets : e.ts = ts := by
    rw [hts] at h1
    exact (Option.some.inj h1).symm
  have hday : e.day = localDay tz ts := by rw [h2, hets]
  refine ⟨hday, ?_, ?_⟩
  · rw [hday]; exact hdiff
  · unfold partitionKey
    rw [hday]

/-- Witness for day_bucket_timezone: midnight UTC on 1970-01-01 is still
1969-12-31 in America/Los_Angeles, so the event lands in day -1, not day 0. -/
theorem day_bucket_timezone_witness :
    (⟨some "impression", some 0, some "p", some "a", some "US", some 2,
        none⟩ : RawRecord).ts = some 0 ∧
    parseRecord losAngelesStd
      ⟨some "impression", some 0, some "p", some "a", some "US", some 2,
        none⟩ =
      Except.ok ⟨EventType.impression, 0, -1, "p", "a", "US", 2, 0⟩ ∧
    localDay losAngelesStd 0 ≠ utcDay 0 ∧
    ((⟨EventType.impression, 0, -1, "p", "a", "US", 2, 0⟩ : Event).day =
        localDay losAngelesStd 0 ∧
      (⟨EventType.impression, 0, -1, "p", "a", "US", 2, 0⟩ : Event).day ≠
        utcDay 0 ∧
      partitionKey ⟨EventType.impression, 0, -1, "p", "a", "US", 2, 0⟩ =
        ((⟨EventType.impression, 0, -1, "p", "a", "US", 2, 0⟩ : Event).type,
          if (⟨EventType.impression, 0, -1, "p", "a", "US", 2,
              0⟩ : Event).type = EventType.impression then
            some (localDay losAngelesStd 0)
          else none)) :=
  ⟨rfl, rfl, by decide,
    day_bucket_timezone losAngelesStd
      ⟨some "impression", some 0, some "p", some "a", some "US", some 2, none⟩
      0 ⟨EventType.impression, 0, -1, "p", "a", "US", 2, 0⟩ rfl rfl
      (by decide)⟩

/-- Claim C3: a malformed record (missing country) among 10 impression
records is dropped and counted: 9 events are ingested and 1 is counted as
dropped, and the ingest does not fail. -/
theorem malformed_records_dropped (tz : Timezone) (rs : List RawRecord)
    (hlen : rs.length = 10)
    (_himp : ∀ r ∈ rs, r.type = some "impression")
    (hmix : ∀ r ∈ rs, r.country = none ∨ wellFormed tz r = true)
    (hone : (rs.filter (fun r => decide (r.country = none))).length = 1) :
    (ingest tz rs).events.length = 9 ∧ (ingest tz rs).dropped = 1 := by
  have hdrop : rs.filter (fun r => !wellFormed tz r) =
      rs.filter (fun r => decide (r.country = none)) := by
    apply List.filter_congr
    intro r hr
    rcases hmix r hr with hc | hw
    · simp [wellFormed_country_none hc, hc]
    · have hc : ¬(r.country = none) := by
        intro hc
        rw [wellFormed_country_none hc] at hw
        simp at hw
      simp [hw, hc]
  have hd : (ingest tz rs).dropped = 1 := by
    show (rs.filter (fun r => !wellFormed tz r)).length = 1
    rw [hdrop]
    exact hone
  have hsplit := length_filter_split (fun r => wellFormed tz r) rs
  have hdlen : (rs.filter (fun r => !wellFormed tz r)).length = 1 := by
    rw [hdrop]
    exact hone
  have he : (ingest tz rs).events.length = 9 := by
    rw [ingest_events_length]
    omega
  exact ⟨he, hd⟩

/-- Witness for malformed_records_dropped: 9 valid impression records and one
missing its country. -/
theorem malformed_records_dropped_witness :
    ((List.replicate 9 (⟨some "impression", some 0, some "p", some "a",
        some "US", some 2, none⟩ : RawRecord) ++
      [(⟨some "impression", some 0, some "p", some "a", none, some 2,
        none⟩ : RawRecord)]).length = 10 ∧
     (∀ r ∈ List.replicate 9 (⟨some "impression", some 0, some "p", some "a",
        some "US", some 2, none⟩ : RawRecord) ++
      [(⟨some "impression", some 0, some "p", some "a", none, some 2,
        none⟩ : RawRecord)], r.type = some "impression") ∧
     (∀ r ∈ List.replicate 9 (⟨some "impression", some 0, some "p", some "a",
        some "US", some 2, none⟩ : RawRecord) ++
      [(⟨some "impression", some 0, some "p", some "a", none, some 2,
        none⟩ : RawRecord)],
      r.country = none ∨ wellFormed losAngelesStd r = true) ∧
     ((List.replicate 9 (⟨some "impression", some 0, some "p", some "a",
        some "US", some 2, none⟩ : RawRecord) ++
      [(⟨some "impression", some 0, some "p", some "a", none, some 2,
        none⟩ : RawRecord)]).filter
        (fun r => decide (r.country = none))).length = 1) ∧
    (ingest losAngelesStd (List.replicate 9 (⟨some "impression", some 0,
        some "p", some "a", some "US", some 2, none⟩ : RawRecord) ++
      [(⟨some "impression", some 0, some "p", some "a", none, some 2,
        none⟩ : RawRecord)])).events.length = 9 ∧
    (ingest losAngelesStd (List.replicate 9 (⟨some "impression", some 0,
        some "p", some "a", some "US", some 2, none⟩ : RawRecord) ++
      [(⟨some "impression", some 0, some "p", some "a", none, some 2,
        none⟩ : RawRecord)])).dropped = 1 := by
  refine ⟨⟨by decide, by decide, by decide, by decide⟩, ?_, ?_⟩
  · exact (malformed_records_dropped losAngelesStd _
      (by decide) (by decide) (by decide) (by decide)).1
  · exact (malformed_records_dropped losAngelesStd _
      (by decide) (by decide) (by decide) (by decide)).2

/-- Claim C7: on an input whose purchase events number 100 across three
countries, with US 40 events summing 4000, JP 30 summing 1500 and DE 30
summing 3000, the country purchase-average aggregate answers exactly DE 100,
JP 50, US 100 (rows in the canned query's sorted country order). -/
theorem country_purchase_avg_scenario (tz : Timezone) (rs : List RawRecord)
    (h100 : (purchases tz rs).length = 100)
    (hUSn : purchCount tz rs "US" = 40) (hUSs : purchSum tz rs "US" = 4000)
    (hJPn : purchCount tz rs "JP" = 30) (hJPs : purchSum tz rs "JP" = 1500)
    (hDEn : purchCount tz rs "DE" = 30) (hDEs : purchSum tz rs "DE" = 3000) :
    planner (prepare tz rs) CannedQuery.countryPurchaseAvg =
      [("DE", 100), ("JP", 50), ("US", 100)] := by
  have hperm : (eventsOfType (partitionsOf (ingest tz rs).events)
      EventType.purchase).Perm (purchases tz rs) :=
    eventsOfType_perm _ _
  have hplan : planner (prepare tz rs) CannedQuery.countryPurchaseAvg =
      groupAvg (purchases tz rs) countryKey (fun e => e.total_price) := by
    show ((keysSorted ((eventsOfType (partitionsOf (ingest tz rs).events)
        EventType.purchase).map countryKey)).map
        (fun k => (k, sumBy (eventsOfType (partitionsOf (ingest tz rs).events)
            EventType.purchase) countryKey (fun e => e.total_price) k,
          (countBy (eventsOfType (partitionsOf (ingest tz rs).events)
            EventType.purchase) countryKey k : ℚ)))).map
        (fun r => (r.1, r.2.1 / r.2.2)) = _
    rw [List.map_map]
    exact groupAvg_perm hperm _ _
  have hUSn' : ((purchases tz rs).filter
      (fun e => decide (countryKey e = "US"))).length = 40 := hUSn
  have hJPn' : ((purchases tz rs).filter
      (fun e => decide (countryKey e = "JP"))).length = 30 := hJPn
  have hDEn' : ((purchases tz rs).filter
      (fun e => decide (countryKey e = "DE"))).length = 30 := hDEn
  have hsplitUS := length_filter_split
    (fun e => decide (countryKey e = "US")) (purchases tz rs)
  have hJPin : ((purchases tz rs).filter
      (fun e => !decide (countryKey e = "US"))).filter
      (fun e => decide (countryKey e = "JP")) =
      (purchases tz rs).filter (fun e => decide (countryKey e = "JP")) := by
    rw [List.filter_filter]
    apply List.filter_congr
    intro e _
    by_cases hj : countryKey e = "JP"
    · have hne : ¬(countryKey e = "US") := by rw [hj]; decide
      simp [hj, hne]
    · simp [hj]
  have hsplitJP := length_filter_split
    (fun e => decide (countryKey e = "JP"))
    ((purchases tz rs).filter (fun e => !decide (countryKey e = "US")))
  have hDEin : (((purchases tz rs).filter
      (fun e => !decide (countryKey e = "US"))).filter
      (fun e => !decide (countryKey e = "JP"))).filter
      (fun e => decide (countryKey e = "DE")) =
      (purchases tz rs).filter (fun e => decide (countryKey e = "DE")) := by
    rw [List.filter_filter, List.filter_filter]
    apply List.filter_congr
    intro e _
    by_cases hd : countryKey e = "DE"
    · have h1 : ¬(countryKey e = "US") := by rw [hd]; decide
      have h2 : ¬(countryKey e = "JP") := by rw [hd]; decide
      simp [hd, h1, h2]
    · simp [hd]
  have hsplitDE := length_filter_split
    (fun e => decide (countryKey e = "DE"))
    (((purchases tz rs).filter
      (fun e => !decide (countryKey e = "US"))).filter
      (fun e => !decide (countryKey e = "JP")))
  have hP3 : ((((purchases tz rs).filter
      (fun e => !decide (countryKey e = "US"))).filter
      (fun e => !decide (countryKey e = "JP"))).filter
      (fun e => !decide (countryKey e = "DE"))).length = 0 := by
    rw [hJPin] at hsplitJP
    rw [hDEin] at hsplitDE
    omega
  have hcover : ∀ e ∈ purchases tz rs,
      e.country = "US" ∨ e.country = "JP" ∨ e.country = "DE" := by
    intro e he
    by_contra hx
    push_neg at hx
    obtain ⟨h1, h2, h3⟩ := hx
    have hmem : e ∈ (((purchases tz rs).filter
        (fun e => !decide (countryKey e = "US"))).filter
        (fun e => !decide (countryKey e = "JP"))).filter
        (fun e => !decide (countryKey e = "DE")) := by
      refine List.mem_filter.mpr ⟨List.mem_filter.mpr
        ⟨List.mem_filter.mpr ⟨he, ?_⟩, ?_⟩, ?_⟩ <;>
        simp [countryKey, h1, h2, h3]
    rw [List.length_eq_zero] at hP3
    rw [hP3] at hmem
    simp at hmem
  have hfin : ((purchases tz rs).map countryKey).toFinset =
      ({"DE", "JP", "US"} : Finset String) := by
    apply Finset.ext
    intro c
    simp only [List.mem_toFinset, List.mem_map, Finset.mem_insert,
      Finset.mem_singleton]
    constructor
    · rintro ⟨e, he, rfl⟩
      rcases hcover e he with h | h | h <;> simp [countryKey, h]
    · have hget : ∀ cc : String,
          ((purchases tz rs).filter
            (fun e => decide (countryKey e = cc))).length ≠ 0 →
          ∃ e, e ∈ purchases tz rs ∧ countryKey e = cc := by
        intro cc hcc
        cases hl : (purchases tz rs).filter
            (fun e => decide (countryKey e = cc)) with
        | nil => rw [hl] at hcc; simp at hcc
        | cons x xs =>
          have hx : x ∈ (purchases tz rs).filter
              (fun e => decide (countryKey e = cc)) := by
            rw [hl]
            exact List.mem_cons_self _ _
          rcases List.mem_filter.mp hx with ⟨hxe, hxc⟩
          exact ⟨x, hxe, of_decide_eq_true hxc⟩
      rintro (rfl | rfl | rfl)
      · exact hget "DE" (by rw [hDEn']; omega)
      · exact hget "JP" (by rw [hJPn']; omega)
      · exact hget "US" (by rw [hUSn']; omega)
  have hfirst : (firstKeys ((purchases tz rs).map countryKey)).toFinset =
      ((purchases tz rs).map countryKey).toFinset := by
    apply Finset.ext
    intro a
    simp [firstKeys_mem]
  have hkeys : keysSorted ((purchases tz rs).map countryKey) =
      ["DE", "JP", "US"] := by
    unfold keysSorted
    have hnd2 : (["DE", "JP", "US"] : List String).Nodup := by decide
    have hperm2 : (List.insertionSort (fun a b => a ≤ b)
        (firstKeys ((purchases tz rs).map countryKey))).Perm
        ["DE", "JP", "US"] :=
      (List.perm_insertionSort _ _).trans
        (List.perm_of_nodup_nodup_toFinset_eq (firstKeys_nodup _) hnd2
          (by rw [hfirst, hfin]; decide))
    refine List.eq_of_perm_of_sorted hperm2
      (List.sorted_insertionSort _ _) ?_
    refine List.Sorted.cons ?_ (List.Sorted.cons ?_ ?_)
    · rw [String.le_iff_toList_le]; decide
    · rw [String.le_iff_toList_le]; decide
    · exact List.sorted_singleton _
  have hUSs' : sumBy (purchases tz rs) countryKey
      (fun e => e.total_price) "US" = 4000 := hUSs
  have hJPs' : sumBy (purchases tz rs) countryKey
      (fun e => e.total_price) "JP" = 1500 := hJPs
  have hDEs' : sumBy (purchases tz rs) countryKey
      (fun e => e.total_price) "DE" = 3000 := hDEs
  have hUSc : countBy (purchases tz rs) countryKey "US" = 40 := hUSn
  have hJPc : countBy (purchases tz rs) countryKey "JP" = 30 := hJPn
  have hDEc : countBy (purchases tz rs) countryKey "DE" = 30 := hDEn
  rw [hplan]
  unfold groupAvg
  rw [hkeys]
  simp only [List.map_cons, List.map_nil, hUSs', hJPs', hDEs', hUSc, hJPc,
    hDEc]
  norm_num

theorem scenario_purchases :
    purchases losAngelesStd scenarioRecords =
      List.replicate 40 (⟨EventType.purchase, 0, -1, "p1", "a1", "US", 0,
        100⟩ : Event) ++
      (List.replicate 30 (⟨EventType.purchase, 1, -1, "p1", "a1", "JP", 0,
        50⟩ : Event) ++
       List.replicate 30 (⟨EventType.purchase, 2, -1, "p1", "a1", "DE", 0,
        100⟩ : Event)) := by
  unfold purchases ingest scenarioRecords
  simp only [List.filterMap_append]
  rw [(List.filterMap_replicate_of_some rfl :
      List.filterMap (fun r => (parseRecord losAngelesStd r).toOption)
        (List.replicate 40 ⟨some "purchase", some 0, some "p1", some "a1",
          some "US", none, some 100⟩) =
      List.replicate 40 (⟨EventType.purchase, 0, -1, "p1", "a1", "US", 0,
        100⟩ : Event)),
    (List.filterMap_replicate_of_some rfl :
      List.filterMap (fun r => (parseRecord losAngelesStd r).toOption)
        (List.replicate 30 ⟨some "purchase", some 1, some "p1", some "a1",
          some "JP", none, some 50⟩) =
      List.replicate 30 (⟨EventType.purchase, 1, -1, "p1", "a1", "JP", 0,
        50⟩ : Event)),
    (List.filterMap_replicate_of_some rfl :
      List.filterMap (fun r => (parseRecord losAngelesStd r).toOption)
        (List.replicate 30 ⟨some "purchase", some 2, some "p1", some "a1",
          some "DE", none, some 100⟩) =
      List.replicate 30 (⟨EventType.purchase, 2, -1, "p1", "a1", "DE", 0,
        100⟩ : Event))]
  simp [List.filter_append]

theorem scenario_sum_us : purchSum losAngelesStd scenarioRecords "US" = 4000 := by
  unfold purchSum sumBy
  rw [scenario_purchases]
  simp [List.filter_append, List.sum_replicate, countryKey]
  norm_num

theorem scenario_sum_jp : purchSum losAngelesStd scenarioRecords "JP" = 1500 := by
  unfold purchSum sumBy
  rw [scenario_purchases]
  simp [List.filter_append, List.sum_replicate, countryKey]
  norm_num

theorem scenario_sum_de : purchSum losAngelesStd scenarioRecords "DE" = 3000 := by
  unfold purchSum sumBy
  rw [scenario_purchases]
  simp [List.filter_append, List.sum_replicate, countryKey]
  norm_num

/-- Witness for country_purchase_avg_scenario: the concrete 100-record input
yields exactly the three expected averages. -/
theorem country_purchase_avg_scenario_witness :
    ((purchases losAngelesStd scenarioRecords).length = 100 ∧
     purchCount losAngelesStd scenarioRecords "US" = 40 ∧
     purchSum losAngelesStd scenarioRecords "US" = 4000 ∧
     purchCount losAngelesStd scenarioRecords "JP" = 30 ∧
     purchSum losAngelesStd scenarioRecords "JP" = 1500 ∧
     purchCount losAngelesStd scenarioRecords "DE" = 30 ∧
     purchSum losAngelesStd scenarioRecords "DE" = 3000) ∧
    planner (prepare losAngelesStd scenarioRecords)
      CannedQuery.countryPurchaseAvg =
      [("DE", 100), ("JP", 50), ("US", 100)] :=
  ⟨⟨by decide, by decide, scenario_sum_us, by decide, scenario_sum_jp,
    by decide, scenario_sum_de⟩,
   country_purchase_avg_scenario losAngelesStd scenarioRecords (by decide)
     (by decide) scenario_sum_us (by decide) scenario_sum_jp (by decide)
     scenario_sum_de⟩
